import Mathlib

/-! Starfield and TypingEffect (`assets/js/custom.js`)

A shallow embedding of the two components of `custom.js`.

* JavaScript numbers are modelled as exact rationals (`ℚ`); rounding, `NaN` and
  infinities are not modelled.
* The host functions the script calls (`Math.random`, `Math.cos`, `Math.sin`,
  `Math.PI`) are taken as parameters, collected in `Host`.  `Math.random` is a
  stream: `random k` is the value returned by the `k`-th call a component makes,
  and each component counts its calls in a field `calls`.
* JavaScript strings are sequences of UTF-16 code units, modelled as `List Char`.
-/

namespace Custom

/-- Host functions used by the script. -/
structure Host where
  /-- The function `Math.random()`: value returned by the `k`-th call. -/
  random : Nat → ℚ
  /-- The function `Math.cos`. -/
  cos : ℚ → ℚ
  /-- The function `Math.sin`. -/
  sin : ℚ → ℚ
  /-- The constant `Math.PI`. -/
  PI : ℚ

/-- The contract of `Math.random`: every returned value lies in `[0, 1)`. -/
def Host.RandomInUnit (h : Host) : Prop :=
  ∀ k, 0 ≤ h.random k ∧ h.random k < 1

/-! ## Starfield -/

/-- A star object as built by `createStar`; `screenX`/`screenY` are `undefined`
(`none`) until `init` or `update` assigns them. -/
structure Star where
  originX : ℚ
  originY : ℚ
  z : ℚ
  size : ℚ
  angle : ℚ
  speed : ℚ
  screenX : Option ℚ
  screenY : Option ℚ
  deriving DecidableEq

/-- The fields of a `Starfield` instance.  `width`/`height` are
`this.canvas.width`/`this.canvas.height`; `calls` counts the calls of
`Math.random` made so far. -/
structure Starfield where
  width : ℚ
  height : ℚ
  stars : List Star
  numStars : Nat
  centerX : ℚ
  centerY : ℚ
  mouseX : ℚ
  mouseY : ℚ
  targetOffsetX : ℚ
  targetOffsetY : ℚ
  currentOffsetX : ℚ
  currentOffsetY : ℚ
  maxOffset : ℚ
  calls : Nat

/-- The expression `2000 / (2000 + star.z)` bound to `scale` in `init`, `update`
and `draw`. -/
def scale (z : ℚ) : ℚ := 2000 / (2000 + z)

/-- The expression `1 - (star.z / 2000)` bound to `depth` in `update`. -/
def depth (z : ℚ) : ℚ := 1 - (z / 2000)

/-- The expression `1 - (star.z / 2000)` bound to `brightness` in `draw`. -/
def brightness (z : ℚ) : ℚ := 1 - (z / 2000)

/-- Method `createStar()`: five calls of `Math.random`, in evaluation order
(angle, distance, z, size, speed).  Returns the star and the new call count. -/
def createStar (h : Host) (width height : ℚ) (calls : Nat) : Star × Nat :=
  let angle := h.random calls * h.PI * 2
  let distance := h.random (calls + 1) * max width height
  ({ originX := h.cos angle * distance
     originY := h.sin angle * distance
     z := h.random (calls + 2) * 2000
     size := h.random (calls + 3) * 2 + 0.5
     angle := angle
     speed := h.random (calls + 4) * 0.5 + 0.2
     screenX := none
     screenY := none }, calls + 5)

/-- The fields assigned by the constructor before `resize()` and `init()`,
followed by `resize()` with the given `window.innerWidth`/`innerHeight`. -/
def Starfield.fresh (innerWidth innerHeight : ℚ) : Starfield :=
  { width := innerWidth
    height := innerHeight
    stars := []
    numStars := 200
    centerX := innerWidth / 2
    centerY := innerHeight / 2
    mouseX := 0
    mouseY := 0
    targetOffsetX := 0
    targetOffsetY := 0
    currentOffsetX := 0
    currentOffsetY := 0
    maxOffset := 100
    calls := 0 }

/-- Method `resize()`. -/
def Starfield.resize (s : Starfield) (innerWidth innerHeight : ℚ) : Starfield :=
  { s with width := innerWidth, height := innerHeight
           centerX := innerWidth / 2, centerY := innerHeight / 2 }

/-- Method `onMouseMove(event)`, with the bounding rectangle of the canvas given by
`left`, `top`, `rectWidth`, `rectHeight`. -/
def Starfield.onMouseMove (s : Starfield) (clientX clientY left top rectWidth rectHeight : ℚ) :
    Starfield :=
  let mouseXNorm := ((clientX - left) / rectWidth) * 2 - 1
  let mouseYNorm := ((clientY - top) / rectHeight) * 2 - 1
  { s with targetOffsetX := -mouseXNorm * s.maxOffset
           targetOffsetY := -mouseYNorm * s.maxOffset }

/-- One iteration of the loop body of `init()`. -/
def initStar (h : Host) (s : Starfield) : Starfield :=
  let (star, calls) := createStar h s.width s.height s.calls
  let sc := scale star.z
  let star := { star with screenX := some (s.centerX + star.originX * sc)
                          screenY := some (s.centerY + star.originY * sc) }
  { s with stars := s.stars ++ [star], calls := calls }

/-- Method `init()`: empties the pool, then runs the loop body `numStars` times. -/
def Starfield.init (h : Host) (s : Starfield) : Starfield :=
  (initStar h)^[s.numStars] { s with stars := [] }

/-- The value assigned to `star.screenX` in the `forEach` callback of `update()`,
computed from the star as it is before the callback runs. -/
def movedX (s : Starfield) (star : Star) : ℚ :=
  let z := star.z - star.speed * 5
  let sc := scale z
  let d := depth z
  let baseX := s.centerX + star.originX * sc
  let parallaxX := s.currentOffsetX * d * 0.3
  baseX + parallaxX

/-- The value assigned to `star.screenY` in the `forEach` callback of `update()`. -/
def movedY (s : Starfield) (star : Star) : ℚ :=
  let z := star.z - star.speed * 5
  let sc := scale z
  let d := depth z
  let baseY := s.centerY + star.originY * sc
  let parallaxY := s.currentOffsetY * d * 0.3
  baseY + parallaxY

/-- The first part of the `forEach` callback of `update()`: the star after
`star.z -= star.speed * 5` and the assignment of `screenX`/`screenY`. -/
def moveStar (s : Starfield) (star : Star) : Star :=
  { star with z := star.z - star.speed * 5
              screenX := some (movedX s star)
              screenY := some (movedY s star) }

/-- The condition of the `if` in the `forEach` callback of `update()`, on the
values `star.z`, `star.screenX`, `star.screenY` just assigned. -/
def offScreen (s : Starfield) (z x y : ℚ) : Prop :=
  z < 1 ∨ x < -50 ∨ x > s.width + 50 ∨ y < -50 ∨ y > s.height + 50

instance (s : Starfield) (z x y : ℚ) : Decidable (offScreen s z x y) := by
  unfold offScreen; infer_instance

/-- The reset condition of `update()` for a star, in terms of the star as it is
before the callback runs. -/
def resets (s : Starfield) (star : Star) : Prop :=
  offScreen s (star.z - star.speed * 5) (movedX s star) (movedY s star)

instance (s : Starfield) (star : Star) : Decidable (resets s star) := by
  unfold resets; infer_instance

/-- The star `createStar()` returns after `this.stars[index].z = 2000`. -/
def respawn (h : Host) (s : Starfield) (calls : Nat) : Star × Nat :=
  let (star, calls) := createStar h s.width s.height calls
  ({ star with z := 2000 }, calls)

/-- The whole `forEach` callback of `update()` for one star: the star stored at
the same index afterwards, and the new call count. -/
def updateStar (h : Host) (s : Starfield) (calls : Nat) (star : Star) : Star × Nat :=
  if resets s star then respawn h s calls else (moveStar s star, calls)

/-- The `forEach` of `update()` over the pool, in index order. -/
def updateStars (h : Host) (s : Starfield) : Nat → List Star → List Star × Nat
  | calls, [] => ([], calls)
  | calls, star :: rest =>
    let r := updateStar h s calls star
    let rs := updateStars h s r.2 rest
    (r.1 :: rs.1, rs.2)

/-- The first two statements of `update()`: the current offset moves towards the
target offset by the factor `easing`. -/
def Starfield.ease (s : Starfield) : Starfield :=
  let easing : ℚ := 0.05
  let s := { s with currentOffsetX := s.currentOffsetX + (s.targetOffsetX - s.currentOffsetX) * easing }
  { s with currentOffsetY := s.currentOffsetY + (s.targetOffsetY - s.currentOffsetY) * easing }

/-- Method `update()`: the easing, then the `forEach` over the pool. -/
def Starfield.update (h : Host) (s : Starfield) : Starfield :=
  let s := s.ease
  let r := updateStars h s s.calls s.stars
  { s with stars := r.1, calls := r.2 }

/-- The ranges in which `createStar` and `update` keep `z` and `speed`. -/
def Star.InRange (star : Star) : Prop :=
  0 ≤ star.z ∧ star.z ≤ 2000 ∧ 1 / 5 ≤ star.speed ∧ star.speed < 7 / 10

/-- JavaScript `a % b` on numbers: the remainder of truncated division, which
has the sign of the dividend.  (`b = 0` gives `NaN` in JavaScript; the only use
below has `b = 1`.) -/
def jsRem (a b : ℚ) : ℚ :=
  let q := a / b
  a - b * (if 0 ≤ q then (⌊q⌋ : ℤ) else (⌈q⌉ : ℤ))

/-- The `starHash` of `draw()`. -/
def starHash (star : Star) : ℚ :=
  jsRem (star.originX * 1000 + star.originY * 1000) 1

/-- The `isGreenStar` of `draw()`. -/
def isGreenStar (star : Star) : Bool :=
  decide (starHash star > 0.7)

/-- The motion trail `draw()` strokes for a fast star: end point offsets, the
alpha of the first colour stop and the line width. -/
structure Trail where
  dx : ℚ
  dy : ℚ
  alpha : ℚ
  lineWidth : ℚ

/-- What `draw()` paints for one star: a filled circle at `(x, y)` of radius
`size`, green (`rgba(0, 255, 65, alpha)`) or white (`rgba(255, 255, 255, alpha)`),
and an optional trail. -/
structure Paint where
  x : ℚ
  y : ℚ
  size : ℚ
  brightness : ℚ
  green : Bool
  alpha : ℚ
  trail : Option Trail

/-- The `forEach` callback of `draw()`; `none` when the star is skipped because
`screenX` or `screenY` is `undefined`. -/
def drawStar (h : Host) (star : Star) : Option Paint :=
  match star.screenX, star.screenY with
  | some x, some y =>
    let sc := scale star.z
    let size := star.size * sc
    let b := brightness star.z
    let green := isGreenStar star
    let trail :=
      if star.speed > 0.5 then
        let trailLength := (1 - sc) * 30
        some { dx := h.cos star.angle * trailLength
               dy := h.sin star.angle * trailLength
               alpha := b * 0.5
               lineWidth := size }
      else none
    some { x := x, y := y, size := size, brightness := b, green := green
           alpha := if green then b * 0.8 else b
           trail := trail }
  | _, _ => none

/-- Method `draw()`: the stars painted over the black background, in pool order. -/
def Starfield.draw (h : Host) (s : Starfield) : List Paint :=
  s.stars.filterMap (drawStar h)

/-! ## TypingEffect -/

/-- The timing configuration record. -/
structure Config where
  typingSpeed : ℚ
  deletingSpeed : ℚ
  pauseAfterComplete : ℚ
  pauseBeforeDelete : ℚ

/-- The constant `CONFIG`. -/
def CONFIG : Config :=
  { typingSpeed := 100
    deletingSpeed := 50
    pauseAfterComplete := 2000
    pauseBeforeDelete := 1500 }

/-- The constant `phrases`. -/
def phrases : List (List Char) :=
  [ "Game Developer since 1996".toList
  , "Software Architect".toList
  , "Cyber Security Expert".toList
  , "Demo Scene Programmer".toList
  , "Creator of Piranha (DOS)".toList
  , "Full-Stack Developer".toList ]

/-- Method `String.prototype.substring(start, end)`: both arguments are clamped to
`[0, length]` and swapped when `start > end`. -/
def substring (str : List Char) (start stop : Int) : List Char :=
  let a := min (max start 0).toNat str.length
  let b := min (max stop 0).toNat str.length
  (str.drop (min a b)).take (max a b - min a b)

/-- The fields of a `TypingEffect` instance; `textContent` is
`this.element.textContent`, `calls` counts the calls of `Math.random`. -/
structure TypingEffect where
  textContent : List Char
  phrases : List (List Char)
  config : Config
  phraseIndex : Nat
  charIndex : Int
  isDeleting : Bool
  isPaused : Bool
  calls : Nat

/-- The constructor: the instance it builds and the delay of the first
`setTimeout`.  `text` is the text the element holds beforehand. -/
def TypingEffect.new (text : List Char) (phrases : List (List Char)) (config : Config) :
    TypingEffect × ℚ :=
  ({ textContent := text, phrases := phrases, config := config
     phraseIndex := 0, charIndex := 0, isDeleting := false, isPaused := false
     calls := 0 }, 500)

/-- Method `type()`: the instance afterwards and the delay passed to `setTimeout`.
`none` is the `TypeError` raised by `currentPhrase.substring` when
`this.phrases[this.phraseIndex]` is `undefined`. -/
def TypingEffect.type (h : Host) (t : TypingEffect) : Option (TypingEffect × ℚ) :=
  match t.phrases[t.phraseIndex]? with
  | none => none
  | some currentPhrase =>
    let t1 : TypingEffect :=
      if t.isDeleting then
        { t with textContent := substring currentPhrase 0 (t.charIndex - 1)
                 charIndex := t.charIndex - 1 }
      else
        { t with textContent := substring currentPhrase 0 (t.charIndex + 1)
                 charIndex := t.charIndex + 1 }
    let typeSpeed := if t1.isDeleting then t1.config.deletingSpeed else t1.config.typingSpeed
    let typeSpeed := typeSpeed + h.random t1.calls * 50
    let t1 := { t1 with calls := t1.calls + 1 }
    if !t1.isDeleting && t1.charIndex == (currentPhrase.length : Int) then
      some ({ t1 with isDeleting := true }, t1.config.pauseBeforeDelete)
    else if t1.isDeleting && t1.charIndex == 0 then
      some ({ t1 with isDeleting := false
                      phraseIndex := (t1.phraseIndex + 1) % t1.phrases.length },
            t1.config.pauseAfterComplete)
    else
      some (t1, typeSpeed)

/-- The instance after `k` successive calls of `type()`. -/
def TypingEffect.steps (h : Host) : Nat → TypingEffect → Option TypingEffect
  | 0, t => some t
  | k + 1, t => (TypingEffect.steps h k t).bind fun t1 => (t1.type h).map Prod.fst

/-- The texts written to the element by the first `k` calls of `type()`, in
order (a call that raises writes nothing). -/
def TypingEffect.texts (h : Host) (k : Nat) (t : TypingEffect) : List (List Char) :=
  (List.range k).filterMap fun i => (TypingEffect.steps h (i + 1) t).map fun t1 => t1.textContent

/-! ## Concrete inputs used to exercise the theorems -/

/-- A host whose `Math.random` always returns `1/2` and whose angle has cosine
`3/5` and sine `4/5`. -/
def exampleHost : Host :=
  { random := fun _ => 1 / 2, cos := fun _ => 3 / 5, sin := fun _ => 4 / 5, PI := 355 / 113 }

/-- A star with a negative origin sum whose screen position is known. -/
def exampleStar : Star :=
  { originX := -1 / 10000, originY := 0, z := 1000, size := 1, angle := 0, speed := 9 / 20
    screenX := some 400, screenY := some 300 }

/-- The star `exampleStar` further away. -/
def exampleFarStar : Star := { exampleStar with z := 1500 }

/-- An 800 by 600 starfield with an empty pool whose pointer target is off centre. -/
def exampleField : Starfield :=
  { Starfield.fresh 800 600 with targetOffsetX := 40, targetOffsetY := -20 }

/-- A host like `exampleHost` whose `Math.random` returns `1/4000` to the call
that draws `z` in `createStar` (every fifth call, starting with the third). -/
def nearHost : Host :=
  { exampleHost with random := fun k => if k % 5 = 2 then 1 / 4000 else 1 / 2 }

/-- The single star `exampleStar` on the 800 by 600 starfield. -/
def exampleOneStar : Starfield := { exampleField with stars := [exampleStar] }

/-- The property "from `t`, some number of `type()` steps reaches the Typing
state (`charIndex` 0, not deleting) at the start of the cyclically next phrase". -/
def TypingEffect.ReachesNext (h : Host) (t : TypingEffect) : Prop :=
  ∃ k t1, TypingEffect.steps h k t = some t1 ∧ t1.charIndex = 0 ∧ t1.isDeleting = false ∧
    t1.phraseIndex = (t.phraseIndex + 1) % t.phrases.length

/-- A `TypingEffect` on the single phrase `"Go"`. -/
def goEffect : TypingEffect := (TypingEffect.new [] ["Go".toList] CONFIG).1

/-- A `TypingEffect` on the two phrases `""` and `"a"`. -/
def emptyFirstEffect : TypingEffect := (TypingEffect.new [] ["".toList, "a".toList] CONFIG).1

/-- A `TypingEffect` on the two phrases `"ab"` and `"c"`, as the constructor
leaves it: at the start of phrase 0. -/
def twoPhraseEffect : TypingEffect :=
  (TypingEffect.new [] ["ab".toList, "c".toList] CONFIG).1

/-- The instance `twoPhraseEffect` at the start of its last phrase, `"c"`. -/
def twoPhraseLast : TypingEffect := { twoPhraseEffect with phraseIndex := 1 }

/-! ## Arithmetic of the projection and of the easing -/

theorem scale_pos {z : ℚ} (hz : 0 ≤ z) : 0 < scale z := by
  unfold scale
  exact div_pos (by norm_num) (by linarith)

theorem scale_le_one {z : ℚ} (hz : 0 ≤ z) : scale z ≤ 1 := by
  unfold scale
  rw [div_le_one (by linarith)]
  linarith

theorem scale_strictAnti {z1 z2 : ℚ} (h1 : 0 ≤ z1) (h12 : z1 < z2) : scale z2 < scale z1 := by
  unfold scale
  exact div_lt_div_of_pos_left (by norm_num) (by linarith) (by linarith)

theorem scale_anti {z1 z2 : ℚ} (h1 : 0 ≤ z1) (h12 : z1 ≤ z2) : scale z2 ≤ scale z1 := by
  rcases eq_or_lt_of_le h12 with h | h
  · rw [h]
  · exact le_of_lt (scale_strictAnti h1 h)

theorem brightness_anti {z1 z2 : ℚ} (h12 : z1 ≤ z2) : brightness z2 ≤ brightness z1 := by
  unfold brightness
  have : z1 / 2000 ≤ z2 / 2000 := div_le_div_of_nonneg_right h12 (by norm_num)
  linarith

theorem drawStar_eq_some {h : Host} {star : Star} {p : Paint} (hp : drawStar h star = some p) :
    p.size = star.size * scale star.z ∧ p.brightness = brightness star.z ∧
    p.green = isGreenStar star ∧ p.alpha = (if isGreenStar star then brightness star.z * 0.8
      else brightness star.z) := by
  unfold drawStar at hp
  split at hp
  · simp only [Option.some.injEq] at hp
    subst hp
    exact ⟨rfl, rfl, rfl, rfl⟩
  · exact absurd hp (by simp)

theorem jsRem_one_nonpos {a : ℚ} (ha : a ≤ 0) : jsRem a 1 ≤ 0 := by
  unfold jsRem
  simp only [div_one, one_mul]
  split
  · have h0 : a = 0 := le_antisymm ha (by assumption)
    simp [h0]
  · have := Int.le_ceil a
    linarith

theorem easing_step (c t : ℚ) : c + (t - c) * 0.05 - t = (c - t) * (19 / 20) := by
  norm_num
  ring

/-! ## The star pool -/

theorem createStar_inRange {h : Host} (hr : h.RandomInUnit) (w ht : ℚ) (c : Nat) :
    (createStar h w ht c).1.InRange := by
  obtain ⟨hz0, hz1⟩ := hr (c + 2)
  obtain ⟨hs0, hs1⟩ := hr (c + 4)
  simp only [createStar, Star.InRange]
  refine ⟨by positivity, by linarith, ?_, ?_⟩ <;> norm_num <;> linarith

theorem respawn_z (h : Host) (s : Starfield) (c : Nat) : (respawn h s c).1.z = 2000 := rfl

theorem respawn_inRange {h : Host} (hr : h.RandomInUnit) (s : Starfield) (c : Nat) :
    (respawn h s c).1.InRange := by
  obtain ⟨-, -, h3, h4⟩ := createStar_inRange hr s.width s.height c
  exact ⟨by rw [respawn_z]; norm_num, by rw [respawn_z], h3, h4⟩

theorem updateStar_inRange {h : Host} (hr : h.RandomInUnit) (s : Starfield) (c : Nat)
    {star : Star} (hs : star.InRange) :
    (updateStar h s c star).1.InRange ∧ 1 ≤ (updateStar h s c star).1.z := by
  unfold updateStar
  split
  · exact ⟨respawn_inRange hr s c, by rw [respawn_z]; norm_num⟩
  · rename_i hno
    obtain ⟨h1, h2, h3, h4⟩ := hs
    have hz : 1 ≤ star.z - star.speed * 5 := by
      by_contra hlt
      exact hno (Or.inl (not_le.mp hlt))
    refine ⟨⟨?_, ?_, h3, h4⟩, hz⟩
    · show 0 ≤ star.z - star.speed * 5
      linarith
    · show star.z - star.speed * 5 ≤ 2000
      linarith

theorem updateStars_length (h : Host) (s : Starfield) (c : Nat) (l : List Star) :
    (updateStars h s c l).1.length = l.length := by
  induction l generalizing c with
  | nil => rfl
  | cons star rest ih => simp [updateStars, ih]

theorem updateStars_inRange {h : Host} (hr : h.RandomInUnit) (s : Starfield) (c : Nat)
    (l : List Star) (hl : ∀ star ∈ l, star.InRange) :
    ∀ star ∈ (updateStars h s c l).1, star.InRange ∧ 1 ≤ star.z := by
  induction l generalizing c with
  | nil => intro star hmem; simp [updateStars] at hmem
  | cons a rest ih =>
    intro star hmem
    simp only [updateStars, List.mem_cons] at hmem
    rcases hmem with rfl | hmem
    · exact updateStar_inRange hr s c (hl a (List.mem_cons_self _ _))
    · exact ih _ (fun x hx => hl x (List.mem_cons_of_mem _ hx)) star hmem

theorem updateStars_getElem? (h : Host) (s : Starfield) (c : Nat) (l : List Star) (i : Nat)
    {star : Star} (hi : l[i]? = some star) :
    ∃ c1, (updateStars h s c l).1[i]? = some (updateStar h s c1 star).1 := by
  induction l generalizing c i with
  | nil => simp at hi
  | cons a rest ih =>
    cases i with
    | zero =>
      simp only [List.getElem?_cons_zero, Option.some.injEq] at hi
      subst hi
      exact ⟨c, by simp [updateStars]⟩
    | succ j =>
      simp only [List.getElem?_cons_succ] at hi
      obtain ⟨c1, hc1⟩ := ih (updateStar h s c a).2 j hi
      exact ⟨c1, by simpa [updateStars] using hc1⟩

theorem update_stars (h : Host) (s : Starfield) :
    (s.update h).stars = (updateStars h s.ease s.ease.calls s.stars).1 := rfl

theorem update_length (h : Host) (s : Starfield) :
    (s.update h).stars.length = s.stars.length := by
  rw [update_stars, updateStars_length]

theorem update_iterate_length (h : Host) (n : Nat) (s : Starfield) :
    ((Starfield.update h)^[n] s).stars.length = s.stars.length := by
  induction n generalizing s with
  | zero => rfl
  | succ k ih => rw [Function.iterate_succ_apply, ih, update_length]

theorem initStar_stars (h : Host) (s : Starfield) :
    ∃ star, (initStar h s).stars = s.stars ++ [star] ∧
      star.z = h.random (s.calls + 2) * 2000 ∧
      star.speed = h.random (s.calls + 4) * 0.5 + 0.2 ∧
      (h.RandomInUnit → star.InRange) :=
  ⟨_, rfl, rfl, rfl, fun hr => createStar_inRange hr s.width s.height s.calls⟩

theorem initStar_iterate_length (h : Host) (n : Nat) (s : Starfield) :
    ((initStar h)^[n] s).stars.length = s.stars.length + n := by
  induction n generalizing s with
  | zero => rfl
  | succ k ih =>
    obtain ⟨star, hst, -⟩ := initStar_stars h s
    rw [Function.iterate_succ_apply, ih, hst]
    simp
    omega

theorem initStar_iterate_mem (h : Host) (n : Nat) (s : Starfield) {star : Star}
    (hmem : star ∈ s.stars) : star ∈ ((initStar h)^[n] s).stars := by
  induction n generalizing s with
  | zero => exact hmem
  | succ k ih =>
    rw [Function.iterate_succ_apply]
    apply ih
    obtain ⟨x, hst, -⟩ := initStar_stars h s
    rw [hst]
    exact List.mem_append_left _ hmem

theorem initStar_iterate_inRange {h : Host} (hr : h.RandomInUnit) (n : Nat) (s : Starfield)
    (hs : ∀ star ∈ s.stars, star.InRange) :
    ∀ star ∈ ((initStar h)^[n] s).stars, star.InRange := by
  induction n generalizing s with
  | zero => exact hs
  | succ k ih =>
    rw [Function.iterate_succ_apply]
    apply ih
    obtain ⟨x, hst, -, -, hx⟩ := initStar_stars h s
    rw [hst]
    intro star hmem
    rcases List.mem_append.mp hmem with hm | hm
    · exact hs star hm
    · rw [List.mem_singleton.mp hm]
      exact hx hr

theorem init_length (h : Host) (s : Starfield) : (s.init h).stars.length = s.numStars := by
  unfold Starfield.init
  rw [initStar_iterate_length]
  simp

theorem init_inRange {h : Host} (hr : h.RandomInUnit) (s : Starfield) :
    ∀ star ∈ (s.init h).stars, star.InRange := by
  unfold Starfield.init
  apply initStar_iterate_inRange hr
  intro star hmem
  simp at hmem

theorem update_inRange {h : Host} (hr : h.RandomInUnit) (s : Starfield)
    (hs : ∀ star ∈ s.stars, star.InRange) :
    ∀ star ∈ (s.update h).stars, star.InRange ∧ 1 ≤ star.z := by
  rw [update_stars]
  exact updateStars_inRange hr _ _ _ hs

theorem update_iterate_inRange {h : Host} (hr : h.RandomInUnit) (n : Nat) (s : Starfield)
    (hs : ∀ star ∈ s.stars, star.InRange) :
    ∀ star ∈ ((Starfield.update h)^[n] s).stars, star.InRange := by
  induction n generalizing s with
  | zero => exact hs
  | succ k ih =>
    rw [Function.iterate_succ_apply]
    exact ih _ (fun star hmem => (update_inRange hr s hs star hmem).1)

/-! ## Claims on the star pool -/

/-- C1: when `Math.random` returns values in `[0, 1)`, every star of the pool
satisfies `0 < z ≤ 2000` after each call of `update()` in a run that starts with
`init()` (from any instance) and continues with calls of `update()` only. -/
theorem C1_z_in_range_after_update (h : Host) (hr : h.RandomInUnit) (s : Starfield) (n : Nat) :
    ∀ star ∈ ((Starfield.update h)^[n + 1] (s.init h)).stars, 0 < star.z ∧ star.z ≤ 2000 := by
  intro star hmem
  rw [Function.iterate_succ_apply'] at hmem
  have hprev := update_iterate_inRange hr n (s.init h) (init_inRange hr s)
  obtain ⟨⟨-, h2, -, -⟩, h1⟩ := update_inRange hr _ hprev star hmem
  exact ⟨by linarith, h2⟩

/-- C1 at `exampleHost`, for the first `update()` after `init()` on an 800 by 600
canvas. -/
theorem C1_z_in_range_after_update_witness :
    exampleHost.RandomInUnit ∧
    ∀ star ∈ ((Starfield.update exampleHost)^[0 + 1] (exampleField.init exampleHost)).stars,
      0 < star.z ∧ star.z ≤ 2000 :=
  ⟨fun _ => by norm_num [exampleHost],
   C1_z_in_range_after_update exampleHost (fun _ => by norm_num [exampleHost]) exampleField 0⟩

/-- C6: the pool has exactly `numStars = 200` entries after the constructor has
run `init()`, `init()` always leaves `numStars` entries, `update()` preserves the
length of the pool, and so the pool has 200 entries after any number of calls of
`update()`. -/
theorem C6_pool_size_constant (h : Host) (w ht : ℚ) :
    ((Starfield.fresh w ht).init h).stars.length = 200 ∧
    (∀ s : Starfield, (s.init h).stars.length = s.numStars) ∧
    (∀ s : Starfield, (s.update h).stars.length = s.stars.length) ∧
    (∀ n : Nat, ((Starfield.update h)^[n] ((Starfield.fresh w ht).init h)).stars.length = 200) := by
  have h200 : ((Starfield.fresh w ht).init h).stars.length = 200 := init_length h _
  exact ⟨h200, init_length h, update_length h,
    fun n => by rw [update_iterate_length, h200]⟩

/-- C7: in `update()`, with `x`, `y` the screen position recomputed for the star
at index `i` after its `z` was lowered by `speed * 5`, the star stored at index
`i` afterwards is a star returned by `createStar()` with `z` set to 2000 (and no
screen position yet) when `z - speed * 5 < 1` or `x < -50` or `x > width + 50`
or `y < -50` or `y > height + 50`; otherwise it is the same star with `originX`,
`originY`, `size`, `angle`, `speed` unchanged, `z` lowered by exactly
`speed * 5` and screen position `(x, y)`.  The two cases are told apart by the
screen position being absent. -/
theorem C7_update_replaces_exactly (h : Host) (s : Starfield) (i : Nat) (star : Star)
    (hi : s.stars[i]? = some star) :
    ∃ new, (s.update h).stars[i]? = some new ∧
      ((star.z - star.speed * 5 < 1 ∨ movedX s.ease star < -50 ∨
          movedX s.ease star > s.width + 50 ∨ movedY s.ease star < -50 ∨
          movedY s.ease star > s.height + 50) →
        (∃ calls, new = { (createStar h s.width s.height calls).1 with z := 2000 }) ∧
        new.z = 2000 ∧ new.screenX = none ∧ new.screenY = none) ∧
      (¬ (star.z - star.speed * 5 < 1 ∨ movedX s.ease star < -50 ∨
          movedX s.ease star > s.width + 50 ∨ movedY s.ease star < -50 ∨
          movedY s.ease star > s.height + 50) →
        new.originX = star.originX ∧ new.originY = star.originY ∧ new.size = star.size ∧
        new.angle = star.angle ∧ new.speed = star.speed ∧
        new.z = star.z - star.speed * 5 ∧
        new.screenX = some (movedX s.ease star) ∧ new.screenY = some (movedY s.ease star)) := by
  obtain ⟨c1, hc1⟩ := updateStars_getElem? h s.ease s.ease.calls s.stars i hi
  refine ⟨_, by rw [update_stars]; exact hc1, ?_, ?_⟩
  · intro hcond
    have hres : resets s.ease star := hcond
    simp only [updateStar, if_pos hres]
    exact ⟨⟨c1, rfl⟩, rfl, rfl, rfl⟩
  · intro hcond
    have hres : ¬ resets s.ease star := hcond
    simp only [updateStar, if_neg hres]
    exact ⟨rfl, rfl, rfl, rfl, rfl, rfl, rfl, rfl⟩

/-- C7 at `exampleOneStar`: its only star (z = 1000, speed = 9/20) stays on the
800 by 600 canvas and is kept, with `z` lowered to `3991/4`. -/
theorem C7_update_replaces_exactly_witness :
    exampleOneStar.stars[0]? = some exampleStar ∧
    ∃ new, (exampleOneStar.update exampleHost).stars[0]? = some new ∧
      new.z = 3991 / 4 ∧ new.speed = 9 / 20 := by
  refine ⟨rfl, ?_⟩
  obtain ⟨new, hnew, -, hkeep⟩ :=
    C7_update_replaces_exactly exampleHost exampleOneStar 0 exampleStar rfl
  have hno : ¬ (exampleStar.z - exampleStar.speed * 5 < 1 ∨
      movedX exampleOneStar.ease exampleStar < -50 ∨
      movedX exampleOneStar.ease exampleStar > exampleOneStar.width + 50 ∨
      movedY exampleOneStar.ease exampleStar < -50 ∨
      movedY exampleOneStar.ease exampleStar > exampleOneStar.height + 50) := by
    norm_num [movedX, movedY, scale, depth, Starfield.ease, exampleOneStar, exampleField,
      Starfield.fresh, exampleStar]
  obtain ⟨-, -, -, -, hsp, hz, -, -⟩ := hkeep hno
  exact ⟨new, hnew, by rw [hz]; norm_num [exampleStar], by rw [hsp]; rfl⟩

/-- The range of the depth value of `update()` for a star in range: it is
positive and below `1 + 7/4000`, and below 1 when the star is not reset for
being too close. -/
theorem depth_bounds {star : Star} (hs : star.InRange) :
    0 < depth (star.z - star.speed * 5) ∧ depth (star.z - star.speed * 5) < 1 + 7 / 4000 ∧
    (1 ≤ star.z - star.speed * 5 → depth (star.z - star.speed * 5) < 1) := by
  obtain ⟨h1, h2, h3, h4⟩ := hs
  unfold depth
  refine ⟨?_, ?_, fun h5 => ?_⟩
  · have : (star.z - star.speed * 5) / 2000 < 1 := by
      rw [div_lt_one (by norm_num)]; linarith
    linarith
  · have : -(7 / 4000) < (star.z - star.speed * 5) / 2000 := by
      rw [lt_div_iff₀ (by norm_num)]; linarith
    linarith
  · have : 0 < (star.z - star.speed * 5) / 2000 := div_pos (by linarith) (by norm_num)
    linarith

/-- C8 (failing input): with `nearHost` on an 800 by 600 canvas, `init()` puts
into the pool a star with `z = 1/2` and `speed = 9/20`; the next `update()`
lowers its `z` to `-7/4` and computes for it the depth `8007/8000`, above 1. -/
theorem C8_depth_above_one :
    ∃ star ∈ ((Starfield.fresh 800 600).init nearHost).stars,
      star.z = 1 / 2 ∧ star.speed = 9 / 20 ∧
      depth (star.z - star.speed * 5) = 8007 / 8000 ∧
      1 < depth (star.z - star.speed * 5) := by
  obtain ⟨star, hst, hz, hsp, -⟩ :=
    initStar_stars nearHost { Starfield.fresh 800 600 with stars := [] }
  have hz1 : star.z = 1 / 2 := by
    rw [hz]; norm_num [nearHost, Starfield.fresh]
  have hsp1 : star.speed = 9 / 20 := by
    rw [hsp]; norm_num [nearHost, Starfield.fresh]
  refine ⟨star, ?_, hz1, hsp1, ?_, ?_⟩
  · show star ∈ ((initStar nearHost)^[200] _).stars
    rw [Function.iterate_succ_apply]
    apply initStar_iterate_mem
    rw [hst]
    simp
  · rw [hz1, hsp1]; norm_num [depth]
  · rw [hz1, hsp1]; norm_num [depth]

/-! ## Claims on the arithmetic -/

/-- C4: the easing of `update()` is a contraction towards the target.  When the
current offset differs from the target, the new offset is strictly closer to the
target and on the same side of it (so it neither overshoots nor reaches it); when
they are equal the offset is unchanged.  This holds for X and for Y, and
`update()` leaves the target itself unchanged. -/
theorem C4_easing_contraction (h : Host) (s : Starfield) :
    (s.currentOffsetX ≠ s.targetOffsetX →
      |(s.update h).currentOffsetX - s.targetOffsetX| < |s.currentOffsetX - s.targetOffsetX| ∧
      (s.currentOffsetX < s.targetOffsetX → (s.update h).currentOffsetX < s.targetOffsetX) ∧
      (s.targetOffsetX < s.currentOffsetX → s.targetOffsetX < (s.update h).currentOffsetX)) ∧
    (s.currentOffsetX = s.targetOffsetX → (s.update h).currentOffsetX = s.currentOffsetX) ∧
    (s.currentOffsetY ≠ s.targetOffsetY →
      |(s.update h).currentOffsetY - s.targetOffsetY| < |s.currentOffsetY - s.targetOffsetY| ∧
      (s.currentOffsetY < s.targetOffsetY → (s.update h).currentOffsetY < s.targetOffsetY) ∧
      (s.targetOffsetY < s.currentOffsetY → s.targetOffsetY < (s.update h).currentOffsetY)) ∧
    (s.currentOffsetY = s.targetOffsetY → (s.update h).currentOffsetY = s.currentOffsetY) ∧
    (s.update h).targetOffsetX = s.targetOffsetX ∧
    (s.update h).targetOffsetY = s.targetOffsetY := by
  have key : ∀ c t : ℚ, (c ≠ t →
      |c + (t - c) * 0.05 - t| < |c - t| ∧
      (c < t → c + (t - c) * 0.05 < t) ∧ (t < c → t < c + (t - c) * 0.05)) ∧
      (c = t → c + (t - c) * 0.05 = c) := by
    intro c t
    refine ⟨fun hne => ⟨?_, ?_, ?_⟩, fun heq => ?_⟩
    · rw [easing_step, abs_mul]
      have hpos : 0 < |c - t| := abs_pos.mpr (sub_ne_zero.mpr hne)
      have h19 : |(19 / 20 : ℚ)| = 19 / 20 := abs_of_pos (by norm_num)
      rw [h19]
      linarith
    · intro hlt
      have := easing_step c t
      linarith
    · intro hlt
      have := easing_step c t
      linarith
    · rw [heq]; simp
  exact ⟨(key _ _).1, (key _ _).2, (key _ _).1, (key _ _).2, rfl, rfl⟩

/-- C4 at `exampleField` (current offset 0, target 40 and -20). -/
theorem C4_easing_contraction_witness :
    exampleField.currentOffsetX ≠ exampleField.targetOffsetX ∧
    |(exampleField.update exampleHost).currentOffsetX - exampleField.targetOffsetX|
      < |exampleField.currentOffsetX - exampleField.targetOffsetX| :=
  ⟨by decide, ((C4_easing_contraction exampleHost exampleField).1 (by decide)).1⟩

/-- C5: the perspective scale `2000 / (2000 + z)` is strictly decreasing in `z`
on `z ≥ 0` and lies in `(0, 1]` there; for two stars of the same non-negative
size, the one with the larger `z` is painted by `draw()` with a projected size
and a brightness that are not larger. -/
theorem C5_scale_size_brightness_monotone :
    (∀ z1 z2 : ℚ, 0 ≤ z1 → z1 < z2 → scale z2 < scale z1) ∧
    (∀ z : ℚ, 0 ≤ z → 0 < scale z ∧ scale z ≤ 1) ∧
    (∀ (h : Host) (a b : Star) (pa pb : Paint), 0 ≤ a.size → b.size = a.size →
      0 ≤ a.z → a.z ≤ b.z → drawStar h a = some pa → drawStar h b = some pb →
      pb.size ≤ pa.size ∧ pb.brightness ≤ pa.brightness ∧
      pa.size = a.size * scale a.z ∧ pa.brightness = 1 - a.z / 2000) := by
  refine ⟨fun z1 z2 h1 h12 => scale_strictAnti h1 h12,
    fun z hz => ⟨scale_pos hz, scale_le_one hz⟩, ?_⟩
  intro h a b pa pb hsize hsame hz hzz ha hb
  obtain ⟨has, hab, -, -⟩ := drawStar_eq_some ha
  obtain ⟨hbs, hbb, -, -⟩ := drawStar_eq_some hb
  refine ⟨?_, ?_, has, by rw [hab]; rfl⟩
  · rw [has, hbs, hsame]
    exact mul_le_mul_of_nonneg_left (scale_anti hz hzz) hsize
  · rw [hab, hbb]
    exact brightness_anti hzz

/-- C5 at `exampleStar` (z = 1000) and `exampleFarStar` (z = 1500). -/
theorem C5_scale_size_brightness_monotone_witness :
    scale 1500 < scale 1000 ∧ (0 < scale 1000 ∧ scale 1000 ≤ 1) ∧
    ∃ pa pb, drawStar exampleHost exampleStar = some pa ∧
      drawStar exampleHost exampleFarStar = some pb ∧
      pb.size ≤ pa.size ∧ pb.brightness ≤ pa.brightness :=
  ⟨C5_scale_size_brightness_monotone.1 1000 1500 (by norm_num) (by norm_num),
   C5_scale_size_brightness_monotone.2.1 1000 (by norm_num),
   _, _, rfl, rfl,
   ((C5_scale_size_brightness_monotone.2.2 exampleHost exampleStar exampleFarStar _ _
      (by decide) rfl (by decide) (by decide) rfl rfl).1),
   ((C5_scale_size_brightness_monotone.2.2 exampleHost exampleStar exampleFarStar _ _
      (by decide) rfl (by decide) (by decide) rfl rfl).2.1)⟩

/-- C10: a star that `draw()` paints green has `originX * 1000 + originY * 1000`
strictly positive; a star for which that sum is zero or negative has a
`starHash` that is zero or negative and is painted white, with alpha equal to its
brightness. -/
theorem C10_green_only_if_positive (h : Host) (star : Star) (p : Paint)
    (hp : drawStar h star = some p) :
    (p.green = true → 0 < star.originX * 1000 + star.originY * 1000) ∧
    (star.originX * 1000 + star.originY * 1000 ≤ 0 →
      starHash star ≤ 0 ∧ p.green = false ∧ p.alpha = p.brightness) := by
  obtain ⟨-, hb, hg, ha⟩ := drawStar_eq_some hp
  have hwhite : star.originX * 1000 + star.originY * 1000 ≤ 0 →
      starHash star ≤ 0 ∧ isGreenStar star = false := by
    intro hle
    have hh : starHash star ≤ 0 := jsRem_one_nonpos hle
    refine ⟨hh, ?_⟩
    unfold isGreenStar
    rw [decide_eq_false_iff_not]
    intro hgt
    have : (0.7 : ℚ) > 0 := by norm_num
    linarith
  constructor
  · intro hgreen
    by_contra hneg
    have := (hwhite (not_lt.mp hneg)).2
    rw [hg, this] at hgreen
    exact absurd hgreen (by decide)
  · intro hle
    obtain ⟨hh, hng⟩ := hwhite hle
    refine ⟨hh, by rw [hg, hng], ?_⟩
    rw [ha, hb, hng]
    simp

/-- C10 at `exampleStar`, whose origin sum is `-1/10`: its fractional part in the
floor sense is `9/10`, yet its `starHash` is `-1/10` and it is painted white. -/
theorem C10_green_only_if_positive_witness :
    ∃ p, drawStar exampleHost exampleStar = some p ∧
      exampleStar.originX * 1000 + exampleStar.originY * 1000 = -1 / 10 ∧
      starHash exampleStar ≤ 0 ∧ p.green = false :=
  ⟨_, rfl, by norm_num [exampleStar],
    ((C10_green_only_if_positive exampleHost exampleStar _ rfl).2
      (by norm_num [exampleStar])).1,
    ((C10_green_only_if_positive exampleHost exampleStar _ rfl).2
      (by norm_num [exampleStar])).2.1⟩

/-! ## The typing effect -/

theorem substring_zero_natCast (p : List Char) (k : Nat) :
    substring p 0 (k : Int) = p.take k := by
  unfold substring
  simp only [max_self, Int.toNat_zero, Nat.zero_le, min_eq_left, max_eq_right, List.drop_zero,
    Nat.sub_zero]
  have hk : (max (k : Int) 0).toNat = k := by simp
  rw [hk]
  rcases Nat.le_total k p.length with hle | hle
  · rw [min_eq_left hle]
  · rw [min_eq_right hle, List.take_of_length_le (le_refl _), List.take_of_length_le hle]

theorem type_typing (h : Host) (t : TypingEffect) (p : List Char) (c : Nat)
    (hp : t.phrases[t.phraseIndex]? = some p) (hc : t.charIndex = c)
    (hd : t.isDeleting = false) :
    (t.type h).map Prod.fst = some { t with textContent := p.take (c + 1)
                                            charIndex := ((c + 1 : Nat) : Int)
                                            isDeleting := decide (c + 1 = p.length)
                                            calls := t.calls + 1 } := by
  have hsub : substring p 0 ((c : Int) + 1) = p.take (c + 1) := by
    have := substring_zero_natCast p (c + 1)
    simpa using this
  unfold TypingEffect.type
  rw [hp]
  simp only [hd, hc, hsub]
  by_cases hlen : c + 1 = p.length
  · have hI : (c : Int) + 1 = (p.length : Int) := by exact_mod_cast hlen
    simp [hI, hlen]
  · have hI : ((c : Int) + 1 == (p.length : Int)) = false := by
      rw [beq_eq_false_iff_ne]; exact_mod_cast hlen
    simp [hI, hlen]

theorem type_deleting (h : Host) (t : TypingEffect) (p : List Char) (c : Nat)
    (hp : t.phrases[t.phraseIndex]? = some p) (hc : t.charIndex = ((c + 1 : Nat) : Int))
    (hd : t.isDeleting = true) :
    (t.type h).map Prod.fst = some { t with textContent := p.take c
                                            charIndex := (c : Int)
                                            isDeleting := decide (c ≠ 0)
                                            phraseIndex := if c = 0 then
                                              (t.phraseIndex + 1) % t.phrases.length
                                              else t.phraseIndex
                                            calls := t.calls + 1 } := by
  have hcc : ((c + 1 : Nat) : Int) - 1 = (c : Int) := by simp
  unfold TypingEffect.type
  rw [hp]
  simp only [hd, hc, hcc, substring_zero_natCast]
  by_cases h0 : c = 0
  · subst h0
    simp
  · have hI : ((c : Int) == 0) = false := by
      rw [beq_eq_false_iff_ne]; exact_mod_cast h0
    simp [hI, h0]

theorem steps_succ (h : Host) (k : Nat) (t : TypingEffect) :
    TypingEffect.steps h (k + 1) t =
      (TypingEffect.steps h k t).bind fun t1 => (t1.type h).map Prod.fst := rfl

theorem steps_typing (h : Host) (t : TypingEffect) (p : List Char)
    (hp : t.phrases[t.phraseIndex]? = some p) (hc : t.charIndex = 0)
    (hd : t.isDeleting = false) (k : Nat) (hk : k + 1 ≤ p.length) :
    TypingEffect.steps h (k + 1) t =
      some { t with textContent := p.take (k + 1)
                    charIndex := ((k + 1 : Nat) : Int)
                    isDeleting := decide (k + 1 = p.length)
                    calls := t.calls + (k + 1) } := by
  induction k with
  | zero =>
    rw [steps_succ]
    simp only [TypingEffect.steps, Option.some_bind]
    rw [type_typing h t p 0 hp (by simpa using hc) hd]
  | succ j ih =>
    rw [steps_succ, ih (by omega)]
    simp only [Option.some_bind]
    refine (type_typing h _ p (j + 1) ?_ ?_ ?_).trans ?_
    · exact hp
    · rfl
    · simp; omega
    · simp [Nat.add_assoc]

theorem steps_deleting (h : Host) (t : TypingEffect) (p : List Char)
    (hp : t.phrases[t.phraseIndex]? = some p) (hc : t.charIndex = 0)
    (hd : t.isDeleting = false) (j : Nat) (hj : j + 1 ≤ p.length) :
    TypingEffect.steps h (p.length + (j + 1)) t =
      some { t with textContent := p.take (p.length - (j + 1))
                    charIndex := ((p.length - (j + 1) : Nat) : Int)
                    isDeleting := decide (j + 1 ≠ p.length)
                    phraseIndex := if j + 1 = p.length then
                      (t.phraseIndex + 1) % t.phrases.length else t.phraseIndex
                    calls := t.calls + (p.length + (j + 1)) } := by
  induction j with
  | zero =>
    obtain ⟨m, hm⟩ : ∃ m, p.length = m + 1 := ⟨p.length - 1, by omega⟩
    rw [show p.length + (0 + 1) = (m + 1) + 1 by omega, steps_succ,
      steps_typing h t p hp hc hd m (by omega)]
    simp only [Option.some_bind]
    refine (type_deleting h _ p m ?_ ?_ ?_).trans ?_
    · exact hp
    · rfl
    · simp; omega
    · simp [hm]
      omega
  | succ i ih =>
    obtain ⟨m, hm⟩ : ∃ m, p.length = (m + 1) + (i + 1) := ⟨p.length - (i + 2), by omega⟩
    rw [show p.length + (i + 1 + 1) = (p.length + (i + 1)) + 1 by omega, steps_succ,
      ih (by omega)]
    simp only [Option.some_bind]
    have hne : ¬ (i + 1 = p.length) := by omega
    refine (type_deleting h _ p m ?_ ?_ ?_).trans ?_
    · simpa [hne] using hp
    · show ((p.length - (i + 1) : Nat) : Int) = _
      congr 1
      omega
    · simp; omega
    · simp [hm, hne]
      refine ⟨by omega, ?_, by omega, by omega, by omega⟩
      split_ifs <;> first | rfl | omega

theorem type_defined (h : Host) (t : TypingEffect) (hi : t.phraseIndex < t.phrases.length) :
    ∃ t1 delay, t.type h = some (t1, delay) ∧ t1.phrases = t.phrases ∧
      t1.phraseIndex < t1.phrases.length := by
  have hpos : 0 < t.phrases.length := by omega
  have hmod : (t.phraseIndex + 1) % t.phrases.length < t.phrases.length := Nat.mod_lt _ hpos
  unfold TypingEffect.type
  rw [List.getElem?_eq_getElem hi]
  simp only
  split_ifs <;> exact ⟨_, _, rfl, by simp, by simpa using (by assumption)⟩

theorem steps_empty_phrase (h : Host) (t : TypingEffect)
    (hp : t.phrases[t.phraseIndex]? = some []) (hc : t.charIndex = 0)
    (hd : t.isDeleting = false) (k : Nat) :
    ∃ t1, TypingEffect.steps h k t = some t1 ∧ t1.phrases = t.phrases ∧
      t1.phraseIndex = t.phraseIndex ∧ t1.isDeleting = false ∧ t1.charIndex = (k : Int) := by
  induction k with
  | zero => exact ⟨t, rfl, rfl, rfl, hd, by simpa using hc⟩
  | succ j ih =>
    obtain ⟨t1, hs, hph, hidx, hdel, hci⟩ := ih
    rw [steps_succ, hs]
    simp only [Option.some_bind]
    rw [type_typing h t1 [] j (by rw [hph, hidx]; exact hp) hci hdel]
    exact ⟨_, rfl, hph, hidx, by simp, rfl⟩

theorem type_typed_last (h : Host) (t : TypingEffect) (p : List Char)
    (hp : t.phrases[t.phraseIndex]? = some p) (hd : t.isDeleting = false)
    (hlen : t.charIndex + 1 = (p.length : Int)) :
    t.type h = some ({ t with textContent := p, charIndex := t.charIndex + 1
                              isDeleting := true, calls := t.calls + 1 },
                     t.config.pauseBeforeDelete) := by
  have hsub : substring p 0 (p.length : Int) = p := by
    rw [substring_zero_natCast, List.take_of_length_le (le_refl _)]
  simp [TypingEffect.type, hp, hd, hlen, hsub]

theorem type_typed_more (h : Host) (t : TypingEffect) (p : List Char)
    (hp : t.phrases[t.phraseIndex]? = some p) (hd : t.isDeleting = false)
    (hlen : t.charIndex + 1 ≠ (p.length : Int)) :
    t.type h = some ({ t with textContent := substring p 0 (t.charIndex + 1)
                              charIndex := t.charIndex + 1, calls := t.calls + 1 },
                     t.config.typingSpeed + h.random t.calls * 50) := by
  simp [TypingEffect.type, hp, hd, hlen]

theorem type_deleted_last (h : Host) (t : TypingEffect) (p : List Char)
    (hp : t.phrases[t.phraseIndex]? = some p) (hd : t.isDeleting = true)
    (h0 : t.charIndex - 1 = 0) :
    t.type h = some ({ t with textContent := [], charIndex := t.charIndex - 1
                              isDeleting := false
                              phraseIndex := (t.phraseIndex + 1) % t.phrases.length
                              calls := t.calls + 1 },
                     t.config.pauseAfterComplete) := by
  have hsub : substring p 0 0 = [] := by
    have := substring_zero_natCast p 0
    simpa using this
  simp [TypingEffect.type, hp, hd, h0, hsub]

theorem type_deleted_more (h : Host) (t : TypingEffect) (p : List Char)
    (hp : t.phrases[t.phraseIndex]? = some p) (hd : t.isDeleting = true)
    (h0 : t.charIndex - 1 ≠ 0) :
    t.type h = some ({ t with textContent := substring p 0 (t.charIndex - 1)
                              charIndex := t.charIndex - 1, calls := t.calls + 1 },
                     t.config.deletingSpeed + h.random t.calls * 50) := by
  simp [TypingEffect.type, hp, hd, h0]

/-! ## Claims on the typing effect -/

/-- C2: for a phrase `p` of length `n ≥ 1` at the current `phraseIndex`, starting
from `charIndex = 0` and `isDeleting = false`, the text written by step `k` is
the first `k` characters of `p` for `1 ≤ k ≤ n` and the first `2n - k` characters
for `n < k ≤ 2n`; after step `2n` the instance has `charIndex = 0`,
`isDeleting = false` and `phraseIndex` advanced by one modulo the number of
phrases.  For the phrase `"Go"` the four texts written are `"G"`, `"Go"`, `"G"`,
`""`. -/
theorem C2_typed_texts (h : Host) (t : TypingEffect) (p : List Char)
    (hp : t.phrases[t.phraseIndex]? = some p) (hn : 1 ≤ p.length)
    (hc : t.charIndex = 0) (hd : t.isDeleting = false) :
    (∀ k, 1 ≤ k → k ≤ p.length →
      ∃ t1, TypingEffect.steps h k t = some t1 ∧ t1.textContent = p.take k) ∧
    (∀ k, p.length < k → k ≤ 2 * p.length →
      ∃ t1, TypingEffect.steps h k t = some t1 ∧ t1.textContent = p.take (2 * p.length - k)) ∧
    (∃ t1, TypingEffect.steps h (2 * p.length) t = some t1 ∧ t1.charIndex = 0 ∧
      t1.isDeleting = false ∧ t1.phraseIndex = (t.phraseIndex + 1) % t.phrases.length) ∧
    (∀ text : List Char, TypingEffect.texts h 4 (TypingEffect.new text ["Go".toList] CONFIG).1 =
      ["G".toList, "Go".toList, "G".toList, "".toList]) := by
  refine ⟨?_, ?_, ?_, ?_⟩
  · intro k hk1 hkn
    obtain ⟨j, rfl⟩ : ∃ j, k = j + 1 := ⟨k - 1, by omega⟩
    exact ⟨_, steps_typing h t p hp hc hd j hkn, rfl⟩
  · intro k hk1 hkn
    obtain ⟨j, rfl⟩ : ∃ j, k = p.length + (j + 1) := ⟨k - p.length - 1, by omega⟩
    refine ⟨_, steps_deleting h t p hp hc hd j (by omega), ?_⟩
    show p.take (p.length - (j + 1)) = _
    congr 1
    omega
  · obtain ⟨m, hm⟩ : ∃ m, p.length = m + 1 := ⟨p.length - 1, by omega⟩
    have hs := steps_deleting h t p hp hc hd m (by omega)
    rw [show p.length + (m + 1) = 2 * p.length by omega] at hs
    refine ⟨_, hs, ?_, ?_, ?_⟩
    · show ((p.length - (m + 1) : Nat) : Int) = 0
      simp [hm]
    · show decide (m + 1 ≠ p.length) = false
      simp [hm]
    · show (if m + 1 = p.length then _ else _) = _
      simp [hm]
  · intro text
    rfl

/-- C2 at `goEffect` (the single phrase `"Go"`). -/
theorem C2_typed_texts_witness :
    (goEffect.phrases[goEffect.phraseIndex]? = some "Go".toList) ∧
    (∃ t1, TypingEffect.steps exampleHost 3 goEffect = some t1 ∧
      t1.textContent = "Go".toList.take (2 * "Go".toList.length - 3)) ∧
    (∃ t1, TypingEffect.steps exampleHost (2 * "Go".toList.length) goEffect = some t1 ∧
      t1.charIndex = 0 ∧ t1.isDeleting = false ∧
      t1.phraseIndex = (goEffect.phraseIndex + 1) % goEffect.phrases.length) :=
  ⟨rfl,
   (C2_typed_texts exampleHost goEffect "Go".toList rfl (by decide) rfl rfl).2.1 3
     (by decide) (by decide),
   (C2_typed_texts exampleHost goEffect "Go".toList rfl (by decide) rfl rfl).2.2.1⟩

/-- C3 (counterexample): with the phrases `""` and `"a"`, starting at the start
of phrase 0, no number of `type()` steps reaches the start of phrase 1: the
instance stays on the empty phrase for ever. -/
theorem C3_empty_phrase_never_advances : ¬ emptyFirstEffect.ReachesNext exampleHost := by
  rintro ⟨k, t1, hs, -, -, hidx⟩
  obtain ⟨t2, hs2, -, hidx2, -, -⟩ := steps_empty_phrase exampleHost emptyFirstEffect rfl rfl rfl k
  rw [hs] at hs2
  cases hs2
  rw [hidx2] at hidx
  exact absurd hidx (by decide)

/-- C3 (amended): when the phrase at a valid `phraseIndex` `i` has length
`n ≥ 1`, then from the Typing state at the start of phrase `i` (`charIndex = 0`,
`isDeleting = false`) exactly `2n` steps of `type()` reach the Typing state at
the start of phrase `(i + 1) mod count`, which is phrase 0 when `i` is the last
index; and no state with a valid `phraseIndex` is terminal: `type()` returns,
schedules a next step and leaves a valid `phraseIndex`. -/
theorem C3_cycling_nonempty_phrase (h : Host) (t : TypingEffect) (p : List Char)
    (hp : t.phrases[t.phraseIndex]? = some p) (hn : 1 ≤ p.length)
    (hc : t.charIndex = 0) (hd : t.isDeleting = false) :
    (∃ t1, TypingEffect.steps h (2 * p.length) t = some t1 ∧ t1.charIndex = 0 ∧
      t1.isDeleting = false ∧ t1.phraseIndex = (t.phraseIndex + 1) % t.phrases.length ∧
      t1.phrases = t.phrases ∧
      (t.phraseIndex + 1 = t.phrases.length → t1.phraseIndex = 0)) ∧
    t.ReachesNext h ∧
    (∀ u : TypingEffect, u.phraseIndex < u.phrases.length →
      ∃ u1 delay, u.type h = some (u1, delay) ∧ u1.phrases = u.phrases ∧
        u1.phraseIndex < u1.phrases.length) := by
  obtain ⟨m, hm⟩ : ∃ m, p.length = m + 1 := ⟨p.length - 1, by omega⟩
  have hs := steps_deleting h t p hp hc hd m (by omega)
  rw [show p.length + (m + 1) = 2 * p.length by omega] at hs
  have hci : ((p.length - (m + 1) : Nat) : Int) = 0 := by simp [hm]
  have hdel : decide (m + 1 ≠ p.length) = false := by simp [hm]
  have hidx : (if m + 1 = p.length then (t.phraseIndex + 1) % t.phrases.length
      else t.phraseIndex) = (t.phraseIndex + 1) % t.phrases.length := by simp [hm]
  refine ⟨⟨_, hs, hci, hdel, hidx, rfl, ?_⟩, ⟨_, _, hs, hci, hdel, hidx⟩,
    fun u hu => type_defined h u hu⟩
  intro hlast
  show (if m + 1 = p.length then (t.phraseIndex + 1) % t.phrases.length
      else t.phraseIndex) = 0
  rw [hidx, hlast, Nat.mod_self]

/-- C3 (amended) on the two phrases `"ab"` and `"c"`: from the start of phrase 0
four calls of `type()` reach the start of phrase 1, and from the start of
phrase 1, the last one, two calls of `type()` reach the start of phrase 0. -/
theorem C3_cycling_nonempty_phrase_witness :
    (twoPhraseEffect.phrases[twoPhraseEffect.phraseIndex]? = some "ab".toList ∧
      1 ≤ "ab".toList.length ∧ twoPhraseEffect.charIndex = 0 ∧
      twoPhraseEffect.isDeleting = false) ∧
    (∃ t1, TypingEffect.steps exampleHost 4 twoPhraseEffect = some t1 ∧ t1.charIndex = 0 ∧
      t1.isDeleting = false ∧ t1.phraseIndex = 1 ∧ twoPhraseEffect.phraseIndex = 0) ∧
    (twoPhraseLast.phrases[twoPhraseLast.phraseIndex]? = some "c".toList ∧
      1 ≤ "c".toList.length ∧ twoPhraseLast.charIndex = 0 ∧
      twoPhraseLast.isDeleting = false) ∧
    (∃ t1, TypingEffect.steps exampleHost 2 twoPhraseLast = some t1 ∧ t1.charIndex = 0 ∧
      t1.isDeleting = false ∧ t1.phraseIndex = 0 ∧ twoPhraseLast.phraseIndex = 1) := by
  refine ⟨⟨rfl, by decide, rfl, rfl⟩, ?_, ⟨rfl, by decide, rfl, rfl⟩, ?_⟩
  · obtain ⟨⟨t1, hs, hc, hd, hidx, -, -⟩, -, -⟩ :=
      C3_cycling_nonempty_phrase exampleHost twoPhraseEffect "ab".toList rfl (by decide) rfl rfl
    exact ⟨t1, hs, hc, hd, hidx, rfl⟩
  · obtain ⟨⟨t1, hs, hc, hd, -, -, hlast⟩, -, -⟩ :=
      C3_cycling_nonempty_phrase exampleHost twoPhraseLast "c".toList rfl (by decide) rfl rfl
    exact ⟨t1, hs, hc, hd, hlast rfl, rfl⟩

/-- C9: the delay `type()` passes to `setTimeout` is `pauseBeforeDelete` when the
step typed the last character of the phrase (it was typing and the new
`charIndex` equals the phrase length; the text written is the whole phrase),
`pauseAfterComplete` when it deleted the last remaining character (it was
deleting and the new `charIndex` is 0; the text written is empty), and otherwise
`typingSpeed + jitter` after typing and `deletingSpeed + jitter` after deleting,
where `jitter = Math.random() * 50` satisfies `0 ≤ jitter < 50`.  In `CONFIG`
the four values are 1500, 2000, 100 and 50. -/
theorem C9_scheduled_delay (h : Host) (hr : h.RandomInUnit) (t : TypingEffect) (p : List Char)
    (hp : t.phrases[t.phraseIndex]? = some p) :
    (∃ t1 delay, t.type h = some (t1, delay) ∧
      (t.isDeleting = false → t.charIndex + 1 = p.length →
        delay = t.config.pauseBeforeDelete ∧ t1.textContent = p) ∧
      (t.isDeleting = true → t.charIndex - 1 = 0 →
        delay = t.config.pauseAfterComplete ∧ t1.textContent = []) ∧
      (t.isDeleting = false → t.charIndex + 1 ≠ p.length →
        delay = t.config.typingSpeed + h.random t.calls * 50) ∧
      (t.isDeleting = true → t.charIndex - 1 ≠ 0 →
        delay = t.config.deletingSpeed + h.random t.calls * 50)) ∧
    (0 ≤ h.random t.calls * 50 ∧ h.random t.calls * 50 < 50) ∧
    (CONFIG.pauseBeforeDelete = 1500 ∧ CONFIG.pauseAfterComplete = 2000 ∧
      CONFIG.typingSpeed = 100 ∧ CONFIG.deletingSpeed = 50) := by
  obtain ⟨hr0, hr1⟩ := hr t.calls
  refine ⟨?_, ⟨by positivity, by linarith⟩, rfl, rfl, rfl, rfl⟩
  cases hd : t.isDeleting
  · by_cases hlen : t.charIndex + 1 = (p.length : Int)
    · exact ⟨_, _, type_typed_last h t p hp hd hlen, fun _ _ => ⟨rfl, rfl⟩,
        fun hf => absurd hf (by simp), fun _ hne => absurd hlen hne,
        fun hf => absurd hf (by simp)⟩
    · exact ⟨_, _, type_typed_more h t p hp hd hlen, fun _ he => absurd he hlen,
        fun hf => absurd hf (by simp), fun _ _ => rfl, fun hf => absurd hf (by simp)⟩
  · by_cases h0 : t.charIndex - 1 = 0
    · exact ⟨_, _, type_deleted_last h t p hp hd h0, fun hf => absurd hf (by simp),
        fun _ _ => ⟨rfl, rfl⟩, fun hf => absurd hf (by simp), fun _ hne => absurd h0 hne⟩
    · exact ⟨_, _, type_deleted_more h t p hp hd h0, fun hf => absurd hf (by simp),
        fun _ he => absurd he h0, fun hf => absurd hf (by simp), fun _ _ => rfl⟩

/-- C9 at `goEffect` with `exampleHost`: the first step types `"G"` of `"Go"` and
schedules the next step after `100 + 25` milliseconds. -/
theorem C9_scheduled_delay_witness :
    exampleHost.RandomInUnit ∧ goEffect.phrases[goEffect.phraseIndex]? = some "Go".toList ∧
    ∃ t1 delay, goEffect.type exampleHost = some (t1, delay) ∧ delay = 125 := by
  have hr : exampleHost.RandomInUnit := fun _ => by norm_num [exampleHost]
  refine ⟨hr, rfl, ?_⟩
  obtain ⟨⟨t1, delay, ht, -, -, h3, -⟩, -, -⟩ :=
    C9_scheduled_delay exampleHost hr goEffect "Go".toList rfl
  refine ⟨t1, delay, ht, ?_⟩
  rw [h3 rfl (by decide)]
  norm_num [goEffect, TypingEffect.new, CONFIG, exampleHost]

end Custom
